import Mathlib

/-!
Verification of the `metric_unify` scripts (`ci/scripts/metric_unify/main.py` and
`ci/scripts/metric_unify/flamegraph.py`): a shallow embedding of the metrics
database, the diff engine, the aggregation engine and the flamegraph stack
collapser, together with proofs about the behaviour the specification claims.

Modelling conventions:
  * Python tuples/lists of (key, value) string pairs become `List (String × String)`.
  * Python dicts (which preserve insertion order) become association lists;
    lookup is first-match, and `dict[k] = v` on a missing key appends at the end,
    exactly as insertion-ordered dicts behave.
  * Counter values are `Int` (Python `int(...)`), metric values inside the
    database are `ℚ` (covering both the integer counters and the float gauges;
    the claims under verification involve no float-rounding behaviour).
  * A Python `None` field is `Option.none`; an exception aborting a computation
    is `Option.none` / `Except.error` at the function's result type.
-/

/-- A metric sample: `main.py` class `Metric`.  `diff_value`/`diff_percent`
start as `None` and are only filled in by `diff_metrics`. -/
structure Metric where
  name : String
  value : ℚ
  diff_value : Option ℚ
  diff_percent : Option ℚ
deriving DecidableEq, Repr

/-- An aggregation rule: `main.py` class `Aggregation`. -/
structure Aggregation where
  name : String
  group_by : List String
  metrics : List String
  operation : String
deriving DecidableEq, Repr

/-- A label set as it appears in a record: an ordered list of (key, value)
string pairs. -/
abbrev Labels := List (String × String)

/-- Model of `main.py` `labels_to_tuple`: converts the JSON list-of-pairs into the
hashable tuple-of-pairs used as the flat-index key.  It preserves the order of
the pairs; in the embedding both sides are ordered lists, so it is the
identity on the pair list. -/
def labels_to_tuple (labels : Labels) : Labels := labels

/-- The flat index `MetricDb.flat_dict`: insertion-ordered dict from label
tuple to metric list. -/
abbrev Flat := List (Labels × List Metric)

/-- The shaped index `MetricDb.dict_by_label_types`: dict from label-key tuple
to (dict from label-value tuple to metric list). -/
abbrev Shaped := List (List String × List (List String × List Metric))

/-- First-match association-list lookup: Python `d[k]` / `k in d` on a dict
(keys are unique in an actual dict, so first match is the match). -/
def alookup {κ α : Type} [DecidableEq κ] : List (κ × α) → κ → Option α
  | [], _ => none
  | p :: rest, k => if p.1 = k then some p.2 else alookup rest k

/-- Python `dict(pairs)[k]` where later pairs win: the value of the last pair
whose key is `k`. -/
def lookupLast : Labels → String → Option String
  | [], _ => none
  | p :: rest, k =>
    match lookupLast rest k with
    | some v => some v
    | none => if p.1 = k then some p.2 else none

/-- Total version of `lookupLast` used where the Python code indexes a dict
with a key it knows is present. -/
def pyLookup (labels : Labels) (k : String) : String := (lookupLast labels k).getD ""

/-- Python `d[k] = d.get(k, 0) + v` on an insertion-ordered dict: update the
existing entry in place or append a fresh one at the end. -/
def bump {κ α : Type} [DecidableEq κ] [Add α] : List (κ × α) → κ → α → List (κ × α)
  | [], k, v => [(k, v)]
  | p :: rest, k, v => if p.1 = k then (p.1, p.2 + v) :: rest else p :: bump rest k v

/-- Fold `bump` over a list of (key, increment) pairs starting from `d`. -/
def accumFrom {κ α : Type} [DecidableEq κ] [Add α] (d : List (κ × α)) (items : List (κ × α)) : List (κ × α) :=
  items.foldl (fun d p => bump d p.1 p.2) d

/-- The distinct keys of a list, in order of first occurrence (the key order an
insertion-ordered dict ends up with). -/
def keyOrder {κ : Type} [DecidableEq κ] (ks : List κ) : List κ :=
  ks.foldl (fun acc k => if k ∈ acc then acc else acc ++ [k]) []

/-- Model of `main.py` `add_to_flat_dict`: get-or-create the entry for `labels` and
append `Metric(metric, value)` to its list. -/
def add_to_flat_dict (labels : Labels) (metric : String) (value : ℚ) : Flat → Flat
  | [] => [(labels, [Metric.mk metric value none none])]
  | e :: rest =>
    if e.1 = labels then (e.1, e.2 ++ [Metric.mk metric value none none]) :: rest
    else e :: add_to_flat_dict labels metric value rest

/-- Model of `main.py` `custom_sort_label_keys`: the sort key giving `"group"` the
lowest priority tag. -/
def custom_sort_label_keys (label_key : String) : ℕ × String :=
  if label_key = "group" then (0, label_key) else (1, label_key)

/-- The order Python `sorted(keys, key=custom_sort_label_keys)` sorts by:
lexicographic comparison of the `(tag, key)` sort keys. -/
def keyLe (a b : String) : Prop :=
  (custom_sort_label_keys a).1 < (custom_sort_label_keys b).1 ∨
    ((custom_sort_label_keys a).1 = (custom_sort_label_keys b).1 ∧
      (custom_sort_label_keys a).2 ≤ (custom_sort_label_keys b).2)

instance keyLe.decidableRel : DecidableRel keyLe := fun _ _ => instDecidableOr

/-- The ordered-keys / matching-values normalization performed at the top of
`MetricDb.separate_by_label_types` (lines 95-97 of `main.py`):
`label_keys = tuple(sorted([key for key, _ in labels], key=custom_sort_label_keys))`,
`label_values = tuple([dict(labels)[key] for key in label_keys])`.
Python `sorted` is a stable sort; `keyLe` is total and antisymmetric, so any
sort realizes it — we use insertion sort. -/
def normalizeLabels (labels : Labels) : List String × List String :=
  let label_keys := List.insertionSort keyLe (labels.map Prod.fst)
  (label_keys, label_keys.map (pyLookup labels))

/-- The nested get-or-create-then-extend of `separate_by_label_types`:
`dict_by_label_types[label_keys][label_values].extend(metrics)` with both
levels created on demand.  Note it extends; it never replaces. -/
def shapedExtend : Shaped → List String → List String → List Metric → Shaped
  | [], ks, vs, ms => [(ks, [(vs, ms)])]
  | e :: rest, ks, vs, ms =>
    if e.1 = ks then (e.1, shapedExtendInner e.2 vs ms) :: rest
    else e :: shapedExtend rest ks vs ms
where
  shapedExtendInner : List (List String × List Metric) → List String → List Metric → List (List String × List Metric)
  | [], vs, ms => [(vs, ms)]
  | e :: rest, vs, ms =>
    if e.1 = vs then (e.1, e.2 ++ ms) :: rest
    else e :: shapedExtendInner rest vs ms

/-- The loop body of `MetricDb.separate_by_label_types`: fold every flat entry
into the (pre-existing!) shaped index.  The Python method does **not** clear
`dict_by_label_types` first, so the fold starts from the old shaped index. -/
def separateInto (shaped : Shaped) (flat : Flat) : Shaped :=
  flat.foldl (fun s e => shapedExtend s (normalizeLabels e.1).1 (normalizeLabels e.1).2 e.2) shaped

/-- Model of `main.py` class `MetricDb`: the flat index and the shaped index. -/
structure MetricDb where
  flat_dict : Flat
  dict_by_label_types : Shaped
deriving DecidableEq, Repr

/-- Model of `MetricDb.separate_by_label_types`. -/
def MetricDb.separate_by_label_types (db : MetricDb) : MetricDb :=
  ⟨db.flat_dict, separateInto db.dict_by_label_types db.flat_dict⟩

/-- A counter record from the export JSON, with its value already parsed by
`int(counter['value'])`. -/
structure CounterRec where
  labels : Labels
  metric : String
  value : Int
deriving DecidableEq, Repr

/-- A gauge record from the export JSON, with its value already parsed by
`float(gauge['value'])` (modelled in `ℚ`). -/
structure GaugeRec where
  labels : Labels
  metric : String
  value : ℚ
deriving DecidableEq, Repr

/-- Model of `MetricDb.__init__` after JSON loading: ingest all counters (dropping the
ones whose integer value is 0), then all gauges, then build the shaped view
from the empty shaped index. -/
def MetricDb.init (counters : List CounterRec) (gauges : List GaugeRec) : MetricDb :=
  let flat1 := counters.foldl
    (fun fl c => if c.value = 0 then fl
                 else add_to_flat_dict (labels_to_tuple c.labels) c.metric (c.value : ℚ) fl) []
  let flat2 := gauges.foldl
    (fun fl g => add_to_flat_dict (labels_to_tuple g.labels) g.metric g.value fl) flat1
  MetricDb.separate_by_label_types ⟨flat2, []⟩

/-- The per-metric mutation inside `diff_metrics`: look up the first
same-named metric in the previous list; if found, set `diff_value`, and set
`diff_percent` only when the previous value is nonzero. -/
def diffOne (oldms : List Metric) (m : Metric) : Metric :=
  match oldms.find? (fun mo => mo.name == m.name) with
  | none => m
  | some mo =>
    { name := m.name, value := m.value,
      diff_value := some (m.value - mo.value),
      diff_percent := if mo.value ≠ 0 then some ((m.value - mo.value) / mo.value) else m.diff_percent }

/-- Model of `main.py` `diff_metrics`: annotate every metric of `db` whose label
identity also occurs in `db_old`, then rebuild the shaped view (which, as in
the source, extends the existing shaped index). -/
def diff_metrics (db db_old : MetricDb) : MetricDb :=
  let flat' := db.flat_dict.map (fun e => (e.1,
    match alookup db_old.flat_dict e.1 with
    | none => e.2
    | some oldms => e.2.map (diffOne oldms)))
  ⟨flat', separateInto db.dict_by_label_types flat'⟩

/-- An overwrite warning printed by `apply_aggregations`:
(metric name, previous value, new value). -/
abbrev Warn := String × ℚ × ℚ

/-- The innermost injection step of `apply_aggregations`: scan the metric list
for a metric with the aggregation's name; if found, overwrite its value
(warning when it differs), else append a fresh metric at the end. -/
def overwriteOrAppend (aname : String) (s : ℚ) : List Metric → List Metric × List Warn
  | [] => ([Metric.mk aname s none none], [])
  | m :: rest =>
    if m.name = aname then
      (Metric.mk m.name s m.diff_value m.diff_percent :: rest,
        if m.value ≠ s then [(m.name, m.value, s)] else [])
    else
      let r := overwriteOrAppend aname s rest
      (m :: r.1, r.2)

/-- Get-or-create the flat entry for `label` and run `overwriteOrAppend` on
its metric list (lines 183-194 of `main.py`).  A missing label creates an
empty entry at the end of the dict, which the overwrite scan then fills. -/
def injectAgg (aname : String) : Flat → Labels → ℚ → Flat × List Warn
  | [], label, s => ([(label, [Metric.mk aname s none none])], [])
  | e :: rest, label, s =>
    if e.1 = label then
      ((e.1, (overwriteOrAppend aname s e.2).1) :: rest, (overwriteOrAppend aname s e.2).2)
    else
      ((e :: (injectAgg aname rest label s).1), (injectAgg aname rest label s).2)

/-- The `group_by_dict` accumulation loop of `apply_aggregations` for one
`sum` rule: iterate shapes whose key set contains all of `group_by`, project
each row onto `group_by` via `dict(zip(tuple_keys, tuple_values))`, and add
every selected metric's value into the running dict. -/
def aggGroupDict (shaped : Shaped) (r : Aggregation) : List (List String × ℚ) :=
  shaped.foldl (fun d e =>
    if r.group_by.all (fun k => e.1.contains k) then
      e.2.foldl (fun d2 e2 =>
        let gbv := r.group_by.map (pyLookup (e.1.zip e2.1))
        e2.2.foldl (fun d3 m =>
          if r.metrics.contains m.name then bump d3 gbv m.value else d3) d2) d
    else d) []

/-- The injection loop of `apply_aggregations` for one rule: fold
`injectAgg` over the accumulated `group_by_dict`, collecting warnings. -/
def injectAll (aname : String) (group_by : List String) : Flat × List Warn → List (List String × ℚ) → Flat × List Warn
  | acc, [] => acc
  | acc, e :: rest =>
    let r := injectAgg aname acc.1 (labels_to_tuple (group_by.zip e.1)) e.2
    injectAll aname group_by (r.1, acc.2 ++ r.2) rest

/-- One iteration of the outer rule loop of `apply_aggregations`: a `sum`
rule accumulates `group_by_dict` from the shaped index and injects each sum
into the flat index; any other operation raises `ValueError`. -/
def applyOneAgg (shaped : Shaped) (flat : Flat) (r : Aggregation) : Except String (Flat × List Warn) :=
  if r.operation = "sum" then
    Except.ok (injectAll r.name r.group_by (flat, []) (aggGroupDict shaped r))
  else
    Except.error ("Unknown operation: " ++ r.operation)

/-- The rule loop of `apply_aggregations`: the shaped index read by each rule
is the one from before the call (it is only rebuilt once, at the very end),
while the flat index is threaded through. -/
def applyAggsList (shaped : Shaped) : Flat → List Warn → List Aggregation → Except String (Flat × List Warn)
  | flat, ws, [] => Except.ok (flat, ws)
  | flat, ws, r :: rest =>
    match applyOneAgg shaped flat r with
    | Except.error e => Except.error e
    | Except.ok fw => applyAggsList shaped fw.1 (ws ++ fw.2) rest

/-- Model of `main.py` `apply_aggregations`: apply every rule in order against the
current shaped index, then rebuild the shaped view once (which, as in the
source, extends the existing shaped index rather than replacing it). -/
def apply_aggregations (db : MetricDb) (aggregations : List Aggregation) : Except String (MetricDb × List Warn) :=
  match applyAggsList db.dict_by_label_types db.flat_dict [] aggregations with
  | Except.error e => Except.error e
  | Except.ok fw => Except.ok (⟨fw.1, separateInto db.dict_by_label_types fw.1⟩, fw.2)

/-- Model of `flamegraph.py` `get_function_symbol`.  The string table is a byte blob
(modelled at character level); `offset_str` is parsed as an integer: on parse
failure the literal text is returned, otherwise the null-terminated string
starting at the offset, or `None` (modelled `none`) when no null terminator
exists at or after the offset.  A negative offset behaves like Python
`bytes.find(sub, start)`: it counts from the end, clamped at 0. -/
def get_function_symbol (string_table : List Char) (offset_str : String) : Option String :=
  match offset_str.toInt? with
  | none => some offset_str
  | some n =>
    let start : Nat := if n < 0 then (((string_table.length : Int) + n).toNat) else n.toNat
    match ((string_table.drop start).findIdx? (fun c => c == Char.ofNat 0)) with
    | none => none
    | some j => some (String.mk ((string_table.drop start).take j))

/-- The stack-segment construction of `get_stack_lines` (lines 50-63): walk
`stack_keys`; a missing key filters the record out (`none`); the
`cycle_tracker_span` key with a string table splits its value on `;` and
resolves every offset, each resolution yielding `some symbol` or, on failure,
Python `None` (the inner `Option.none`). -/
def buildStack (string_table : Option (List Char)) (labels : Labels) : List String → Option (List (Option String))
  | [] => some []
  | key :: rest =>
    match lookupLast labels key with
    | none => none
    | some v =>
      let segs : List (Option String) :=
        if key = "cycle_tracker_span" then
          match string_table with
          | none => [some v]
          | some tbl => if v = "" then [some v] else (v.splitOn ";").map (fun off => get_function_symbol tbl off)
        else [some v]
      match buildStack string_table labels rest with
      | none => none
      | some tail => some (segs ++ tail)

/-- The per-record outcome of the stack build followed by `';'.join`: outer
`none` = record filtered out; `some none` = a `None` segment reached the join
(Python raises `TypeError`, aborting the batch); `some (some p)` = the joined
path. -/
def recordPath (string_table : Option (List Char)) (stack_keys : List String) (labels : Labels) : Option (Option String) :=
  match buildStack string_table labels stack_keys with
  | none => none
  | some vals =>
    if vals.all Option.isSome then some (some (String.intercalate ";" (vals.filterMap id)))
    else some none

/-- The metric-selection test at the top of the counter loop of
`get_stack_lines`. -/
def counterSelected (metric_name : String) (sum_metrics : Option (List String)) (c : CounterRec) : Bool :=
  match sum_metrics with
  | some sm => sm.contains c.metric
  | none => c.metric == metric_name

/-- The `group_by_kvs` filter of `get_stack_lines`: a record is dropped when
some required key is absent or carries a different value. -/
def groupFilter (group_by_kvs : List (String × String)) (labels : Labels) : Bool :=
  group_by_kvs.any (fun kv =>
    match lookupLast labels kv.1 with
    | none => true
    | some v => v != kv.2)

/-- The counter loop of `get_stack_lines`, threading `stack_sums` and the
`non_zero` flag; result `none` models the uncaught `TypeError` from joining a
failed symbol resolution. -/
def stackLoop (string_table : Option (List Char)) (group_by_kvs : List (String × String))
    (stack_keys : List String) (metric_name : String) (sum_metrics : Option (List String)) :
    List CounterRec → List (String × Int) → Bool → Option (List (String × Int) × Bool)
  | [], sums, nz => some (sums, nz)
  | c :: rest, sums, nz =>
    if counterSelected metric_name sum_metrics c = false then
      stackLoop string_table group_by_kvs stack_keys metric_name sum_metrics rest sums nz
    else if groupFilter group_by_kvs c.labels then
      stackLoop string_table group_by_kvs stack_keys metric_name sum_metrics rest sums nz
    else
      match recordPath string_table stack_keys c.labels with
      | none => stackLoop string_table group_by_kvs stack_keys metric_name sum_metrics rest sums nz
      | some none => none
      | some (some stack) =>
        stackLoop string_table group_by_kvs stack_keys metric_name sum_metrics rest
          (bump sums stack c.value) (nz || (c.value != 0))

/-- Model of `flamegraph.py` `get_stack_lines`: run the counter loop, then emit one
`"path weight"` line per nonzero accumulated weight — unless no matching
record had a nonzero value at all, in which case no lines are emitted. -/
def get_stack_lines (string_table : Option (List Char)) (group_by_kvs : List (String × String))
    (stack_keys : List String) (metric_name : String) (sum_metrics : Option (List String))
    (counters : List CounterRec) : Option (List String) :=
  match stackLoop string_table group_by_kvs stack_keys metric_name sum_metrics counters [] false with
  | none => none
  | some sn =>
    some (if sn.2 then (sn.1.filter (fun p => p.2 != 0)).map (fun p => p.1 ++ " " ++ toString p.2) else [])

/-! Section: Declarative companions used to state the claims -/

/-- Sum of the values attached to key `k` in a list of (key, value) pairs. -/
def sumVals {κ α : Type} [DecidableEq κ] [AddCommMonoid α] (items : List (κ × α)) (k : κ) : α :=
  ((items.filter (fun p => p.1 = k)).map Prod.snd).sum

/-- The (projection, metric value) contributions a `sum` rule collects,
flattened in iteration order: one pair per selected metric of every row whose
shape contains all the `group_by` keys, keyed by the row's projection onto
`group_by`. -/
def aggItems (shaped : Shaped) (r : Aggregation) : List (List String × ℚ) :=
  shaped.flatMap (fun e =>
    if r.group_by.all (fun k => e.1.contains k) then
      e.2.flatMap (fun e2 =>
        (e2.2.filter (fun m => r.metrics.contains m.name)).map
          (fun m => (r.group_by.map (pyLookup (e.1.zip e2.1)), m.value)))
    else [])

/-- The sum, over all rows agreeing on the projection `gbv`, of the values of
every metric named in the rule's metric list. -/
def aggSum (shaped : Shaped) (r : Aggregation) (gbv : List String) : ℚ :=
  sumVals (aggItems shaped r) gbv

/-- The value of the first metric named `aname` under the flat entry for
`label` (how both the rendering code and the overwrite scan read a metric). -/
def flatFindValue (flat : Flat) (label : Labels) (aname : String) : Option ℚ :=
  match alookup flat label with
  | none => none
  | some ms => (ms.find? (fun m => m.name == aname)).map Metric.value

/-- The (path, value) pair each matching record contributes to the stack
collapse: records failing metric selection, the group filter, or a stack key
are dropped (`none`). -/
def stackItemsSpec (string_table : Option (List Char)) (group_by_kvs : List (String × String))
    (stack_keys : List String) (metric_name : String) (sum_metrics : Option (List String))
    (counters : List CounterRec) : List (String × Int) :=
  counters.filterMap (fun c =>
    if counterSelected metric_name sum_metrics c ∧ groupFilter group_by_kvs c.labels = false then
      match recordPath string_table stack_keys c.labels with
      | some (some p) => some (p, c.value)
      | _ => none
    else none)

/-- What the claim says `get_stack_lines` produces: if every matching record
has value 0, no lines; otherwise one `"path weight"` line per distinct path
(in order of first occurrence) whose accumulated weight — the sum of the
values of all matching records collapsing to that path — is nonzero. -/
def get_stack_lines_spec (string_table : Option (List Char)) (group_by_kvs : List (String × String))
    (stack_keys : List String) (metric_name : String) (sum_metrics : Option (List String))
    (counters : List CounterRec) : List String :=
  let items := stackItemsSpec string_table group_by_kvs stack_keys metric_name sum_metrics counters
  if ∀ p ∈ items, p.2 = 0 then []
  else (keyOrder (items.map Prod.fst)).filterMap (fun path =>
    if sumVals items path = 0 then none
    else some (path ++ " " ++ toString (sumVals items path)))

instance keyLe.isTotal : IsTotal String keyLe := ⟨by
  intro a b
  rcases Nat.lt_trichotomy (custom_sort_label_keys a).1 (custom_sort_label_keys b).1 with h | h | h
  · exact Or.inl (Or.inl h)
  · rcases le_total (custom_sort_label_keys a).2 (custom_sort_label_keys b).2 with hs | hs
    · exact Or.inl (Or.inr ⟨h, hs⟩)
    · exact Or.inr (Or.inr ⟨h.symm, hs⟩)
  · exact Or.inr (Or.inl h)⟩

instance keyLe.isTrans : IsTrans String keyLe := ⟨by
  intro a b c hab hbc
  rcases hab with h1 | ⟨h1, h1'⟩ <;> rcases hbc with h2 | ⟨h2, h2'⟩
  · exact Or.inl (lt_trans h1 h2)
  · exact Or.inl (h2 ▸ h1)
  · exact Or.inl (by rw [h1]; exact h2)
  · exact Or.inr ⟨h1.trans h2, le_trans h1' h2'⟩⟩

instance keyLe.isAntisymm : IsAntisymm String keyLe := ⟨by
  intro a b hab hba
  rcases hab with h1 | ⟨h1, h1'⟩
  · rcases hba with h2 | ⟨h2, h2'⟩
    · exact absurd h2 (lt_asymm h1)
    · exact absurd (h2 ▸ h1) (lt_irrefl _)
  · rcases hba with h2 | ⟨h2, h2'⟩
    · exact absurd (h1 ▸ h2) (lt_irrefl _)
    · have hs : (custom_sort_label_keys a).2 = (custom_sort_label_keys b).2 :=
        le_antisymm h1' h2'
      simpa [custom_sort_label_keys, apply_ite Prod.snd] using hs⟩

/-! Section: Concrete inputs used by witnesses and counterexamples -/

deriving instance DecidableEq for Except

/-- Counter `{group:"a"} cycles = 3`. -/
def cyc3Rec : CounterRec := ⟨[("group", "a")], "cycles", 3⟩

/-- Counter `{group:"a"} cycles = 7`. -/
def cyc7Rec : CounterRec := ⟨[("group", "a")], "cycles", 7⟩

/-- The rule `{group_by:["group"], metrics:["cycles"], operation:"sum", name:"total_cycles"}`. -/
def totalCyclesRule : Aggregation := ⟨"total_cycles", ["group"], ["cycles"], "sum"⟩

/-- The database ingesting the two cycles counters. -/
def dbExample : MetricDb := MetricDb.init [cyc3Rec, cyc7Rec] []

/-- Model of `dbExample` after one application of `totalCyclesRule`. -/
def dbExample1 : MetricDb :=
  match apply_aggregations dbExample [totalCyclesRule] with
  | Except.ok p => p.1
  | Except.error _ => dbExample

/-- A one-entry database whose shaped index has not been built yet. -/
def dbOneEntry : MetricDb := ⟨[([("k", "v")], [Metric.mk "m" 1 none none])], []⟩

/-- The symbol table `b"main\0helper\0"`. -/
def tblExample : List Char :=
  ['m', 'a', 'i', 'n', Char.ofNat 0, 'h', 'e', 'l', 'p', 'e', 'r', Char.ofNat 0]

/-- A counter whose `cycle_tracker_span` holds the unresolvable offset `100`. -/
def offset100Rec : CounterRec := ⟨[("cycle_tracker_span", "100"), ("op", "add")], "frequency", 5⟩

/-- Stack-collapse example record: `{span:"f;g", op:"add"} frequency = 2`. -/
def fgRec2 : CounterRec := ⟨[("span", "f;g"), ("op", "add")], "frequency", 2⟩

/-- Stack-collapse example record: `{span:"f;g", op:"add"} frequency = 3`. -/
def fgRec3 : CounterRec := ⟨[("span", "f;g"), ("op", "add")], "frequency", 3⟩

/-- Gauge with labels `[a=1, b=2]` in that order. -/
def gaugeAB : GaugeRec := ⟨[("a", "1"), ("b", "2")], "m", 5⟩

/-- The same pair set as `gaugeAB`, listed in the other order. -/
def gaugeBA : GaugeRec := ⟨[("b", "2"), ("a", "1")], "m", 5⟩

/-- Current database for the diff examples: `x = 10`, `y = 5` under `{group:"a"}`. -/
def dbNowExample : MetricDb :=
  MetricDb.init [] [⟨[("group", "a")], "x", 10⟩, ⟨[("group", "a")], "y", 5⟩]

/-- Previous database for the diff examples: `x = 4`, `y = 0` under `{group:"a"}`. -/
def dbOldExample : MetricDb :=
  MetricDb.init [] [⟨[("group", "a")], "x", 4⟩, ⟨[("group", "a")], "y", 0⟩]

/-! Section: Generic association-list lemmas -/

theorem keyOrder_nil {κ : Type} [DecidableEq κ] : keyOrder ([] : List κ) = [] := rfl

theorem keyOrder_concat {κ : Type} [DecidableEq κ] (ks : List κ) (k : κ) :
    keyOrder (ks ++ [k]) = if k ∈ keyOrder ks then keyOrder ks else keyOrder ks ++ [k] := by
  simp [keyOrder, List.foldl_append]

theorem mem_keyOrder {κ : Type} [DecidableEq κ] (ks : List κ) (a : κ) :
    a ∈ keyOrder ks ↔ a ∈ ks := by
  induction ks using List.reverseRecOn with
  | nil => simp [keyOrder_nil]
  | append_singleton ks k ih =>
    rw [keyOrder_concat]
    by_cases hk : k ∈ keyOrder ks
    · simp only [if_pos hk, List.mem_append, List.mem_singleton, ih]
      constructor
      · exact fun h => Or.inl h
      · rintro (h | rfl)
        · exact h
        · exact ih.mp hk
    · simp [if_neg hk, ih]

theorem keyOrder_nodup {κ : Type} [DecidableEq κ] (ks : List κ) : (keyOrder ks).Nodup := by
  induction ks using List.reverseRecOn with
  | nil => simp [keyOrder_nil]
  | append_singleton ks k ih =>
    rw [keyOrder_concat]
    by_cases hk : k ∈ keyOrder ks
    · simpa [if_pos hk]
    · rw [if_neg hk]
      exact List.Nodup.append ih (List.nodup_singleton k) (by simpa using hk)

theorem bump_map_mem {κ α : Type} [DecidableEq κ] [Add α] (l : List κ) (f : κ → α) (k : κ) (v : α)
    (hnd : l.Nodup) (hk : k ∈ l) :
    bump (l.map fun key => (key, f key)) k v
      = l.map fun key => (key, if key = k then f key + v else f key) := by
  induction l with
  | nil => cases hk
  | cons a t ih =>
    obtain ⟨hnotin, hndt⟩ := List.nodup_cons.mp hnd
    rcases List.mem_cons.mp hk with rfl | hk'
    · have htail : List.map (fun key => (key, if key = k then f key + v else f key)) t
          = List.map (fun key => (key, f key)) t :=
        List.map_congr_left (fun key hkey => by
          have hne : key ≠ k := fun h => hnotin (h ▸ hkey)
          simp [hne])
      simp [bump, htail]
    · have hak : a ≠ k := fun h => hnotin (h ▸ hk')
      simp [bump, hak, ih hndt hk']

theorem bump_map_notmem {κ α : Type} [DecidableEq κ] [Add α] (l : List κ) (f : κ → α) (k : κ) (v : α)
    (hk : k ∉ l) :
    bump (l.map fun key => (key, f key)) k v = (l.map fun key => (key, f key)) ++ [(k, v)] := by
  induction l with
  | nil => rfl
  | cons a t ih =>
    have hak : a ≠ k := fun h => hk (h ▸ List.mem_cons_self a t)
    simp only [List.map_cons, bump, if_neg hak, List.cons_append]
    rw [ih (fun h => hk (List.mem_cons_of_mem a h))]

theorem sumVals_concat {κ α : Type} [DecidableEq κ] [AddCommMonoid α]
    (items : List (κ × α)) (p : κ × α) (k : κ) :
    sumVals (items ++ [p]) k = sumVals items k + (if p.1 = k then p.2 else 0) := by
  simp only [sumVals, List.filter_append, List.map_append, List.sum_append]
  by_cases h : p.1 = k
  · simp [h]
  · simp [h]

theorem sumVals_of_not_mem {κ α : Type} [DecidableEq κ] [AddCommMonoid α]
    (items : List (κ × α)) (k : κ) (hk : k ∉ items.map Prod.fst) :
    sumVals items k = 0 := by
  have : items.filter (fun p => decide (p.1 = k)) = [] := by
    rw [List.filter_eq_nil_iff]
    intro p hp hpk
    exact hk (List.mem_map.mpr ⟨p, hp, by simpa using hpk⟩)
  simp [sumVals, this]

theorem accumFrom_append {κ α : Type} [DecidableEq κ] [Add α]
    (d : List (κ × α)) (xs ys : List (κ × α)) :
    accumFrom d (xs ++ ys) = accumFrom (accumFrom d xs) ys := by
  simp [accumFrom, List.foldl_append]

theorem accum_closed {κ α : Type} [DecidableEq κ] [AddCommMonoid α] (items : List (κ × α)) :
    accumFrom [] items
      = (keyOrder (items.map Prod.fst)).map (fun k => (k, sumVals items k)) := by
  induction items using List.reverseRecOn with
  | nil => rfl
  | append_singleton items p ih =>
    rw [accumFrom_append, ih]
    have hfst : (items ++ [p]).map Prod.fst = items.map Prod.fst ++ [p.1] := by simp
    rw [hfst, keyOrder_concat]
    by_cases hp : p.1 ∈ keyOrder (items.map Prod.fst)
    · rw [if_pos hp]
      show bump _ p.1 p.2 = _
      rw [bump_map_mem _ _ _ _ (keyOrder_nodup _) hp]
      apply List.map_congr_left
      intro k hk
      rw [sumVals_concat]
      by_cases hkp : k = p.1
      · simp [hkp]
      · have : ¬ p.1 = k := fun h => hkp h.symm
        simp [hkp, this]
    · rw [if_neg hp]
      show bump _ p.1 p.2 = _
      rw [bump_map_notmem _ _ _ _ hp, List.map_append]
      congr 1
      · apply List.map_congr_left
        intro k hk
        rw [sumVals_concat]
        have : ¬ p.1 = k := fun h => hp (h ▸ hk)
        simp [this]
      · simp only [List.map_singleton]
        rw [sumVals_concat, sumVals_of_not_mem _ _ (fun h => hp ((mem_keyOrder _ _).mpr h))]
        simp

theorem alookup_map_keyfun {α : Type} (flat : List (Labels × α)) (g : Labels → α → α) (L : Labels) :
    alookup (flat.map (fun e => (e.1, g e.1 e.2))) L = (alookup flat L).map (g L) := by
  induction flat with
  | nil => rfl
  | cons e rest ih =>
    by_cases h : e.1 = L
    · subst h; simp [alookup]
    · simp [alookup, h, ih]

theorem accumFrom_cons {κ α : Type} [DecidableEq κ] [Add α]
    (d : List (κ × α)) (p : κ × α) (items : List (κ × α)) :
    accumFrom d (p :: items) = accumFrom (bump d p.1 p.2) items := rfl

/-! Section: The `group_by_dict` accumulation equals the flattened item list -/

theorem aggRow_fold (r : Aggregation) (gbv : List String) (ms : List Metric)
    (d : List (List String × ℚ)) :
    ms.foldl (fun d3 m => if r.metrics.contains m.name then bump d3 gbv m.value else d3) d
      = accumFrom d ((ms.filter (fun m => r.metrics.contains m.name)).map (fun m => (gbv, m.value))) := by
  induction ms generalizing d with
  | nil => rfl
  | cons m rest ih =>
    by_cases h : r.metrics.contains m.name
    · simp only [List.foldl_cons, List.filter_cons, h, if_pos, List.map_cons, accumFrom_cons]
      exact ih _
    · simp only [List.foldl_cons, List.filter_cons, h, if_neg, List.map_cons]
      simpa [h] using ih d

theorem aggInner_fold (r : Aggregation) (tk : List String)
    (md : List (List String × List Metric)) (d : List (List String × ℚ)) :
    md.foldl (fun d2 e2 =>
        e2.2.foldl (fun d3 m =>
          if r.metrics.contains m.name then bump d3 (r.group_by.map (pyLookup (tk.zip e2.1))) m.value
          else d3) d2) d
      = accumFrom d (md.flatMap (fun e2 =>
          (e2.2.filter (fun m => r.metrics.contains m.name)).map
            (fun m => (r.group_by.map (pyLookup (tk.zip e2.1)), m.value)))) := by
  induction md generalizing d with
  | nil => rfl
  | cons e2 rest ih =>
    simp only [List.foldl_cons, List.flatMap_cons, accumFrom_append]
    rw [aggRow_fold, ih]

theorem aggGroupDict_eq_accum (shaped : Shaped) (r : Aggregation) :
    aggGroupDict shaped r = accumFrom [] (aggItems shaped r) := by
  suffices h : ∀ d, shaped.foldl (fun d e =>
      if r.group_by.all (fun k => e.1.contains k) then
        e.2.foldl (fun d2 e2 =>
          let gbv := r.group_by.map (pyLookup (e.1.zip e2.1))
          e2.2.foldl (fun d3 m =>
            if r.metrics.contains m.name then bump d3 gbv m.value else d3) d2) d
      else d) d = accumFrom d (aggItems shaped r) by
    exact h []
  induction shaped with
  | nil => intro d; rfl
  | cons e rest ih =>
    intro d
    simp only [List.foldl_cons, aggItems, List.flatMap_cons, accumFrom_append]
    by_cases h : r.group_by.all (fun k => e.1.contains k)
    · simp only [h, if_pos]
      rw [aggInner_fold]
      exact ih _
    · simp only [h, if_neg]
      simpa [aggItems] using ih d

/-! Section: Injection lemmas -/

theorem find_overwriteOrAppend (aname : String) (s : ℚ) (ms : List Metric) :
    ((overwriteOrAppend aname s ms).1.find? (fun m => m.name == aname)).map Metric.value
      = some s := by
  induction ms with
  | nil => simp [overwriteOrAppend, List.find?]
  | cons m rest ih =>
    by_cases h : m.name = aname
    · simp [overwriteOrAppend, h, List.find?]
    · have hb : (m.name == aname) = false := by simpa using h
      simp only [overwriteOrAppend, h, if_neg]
      simpa [List.find?, hb] using ih

theorem injectAgg_find_self (aname : String) (flat : Flat) (label : Labels) (s : ℚ) :
    flatFindValue (injectAgg aname flat label s).1 label aname = some s := by
  induction flat with
  | nil => simp [injectAgg, flatFindValue, alookup, find_overwriteOrAppend]
  | cons e rest ih =>
    by_cases h : e.1 = label
    · simp [injectAgg, h, flatFindValue, alookup, find_overwriteOrAppend]
    · simpa [injectAgg, h, flatFindValue, alookup] using ih

theorem injectAgg_find_other (aname : String) (flat : Flat) (label : Labels) (s : ℚ)
    (L : Labels) (n : String) (hne : L ≠ label) :
    flatFindValue (injectAgg aname flat label s).1 L n = flatFindValue flat L n := by
  induction flat with
  | nil =>
    have : label ≠ L := fun h => hne h.symm
    simp [injectAgg, flatFindValue, alookup, this]
  | cons e rest ih =>
    have hne' : label ≠ L := fun h => hne h.symm
    by_cases h : e.1 = label
    · have heL : e.1 ≠ L := fun hh => hne (hh ▸ h : L = label)
      simp [injectAgg, h, flatFindValue, alookup, heL, hne']
    · by_cases heL : e.1 = L
      · simp [injectAgg, h, flatFindValue, alookup, heL, hne, hne']
      · simpa [injectAgg, h, flatFindValue, alookup, heL] using ih

theorem injectAll_preserve (aname : String) (group_by : List String)
    (entries : List (List String × ℚ)) (acc : Flat × List Warn) (L : Labels) (n : String)
    (hL : ∀ e ∈ entries, labels_to_tuple (group_by.zip e.1) ≠ L) :
    flatFindValue (injectAll aname group_by acc entries).1 L n = flatFindValue acc.1 L n := by
  induction entries generalizing acc with
  | nil => rfl
  | cons e rest ih =>
    rw [injectAll, ih _ (fun e2 h2 => hL e2 (List.mem_cons_of_mem e h2))]
    exact injectAgg_find_other _ _ _ _ _ _
      (fun h => hL e (List.mem_cons_self e rest) h.symm)

theorem injectAll_find (aname : String) (group_by : List String)
    (entries : List (List String × ℚ)) (acc : Flat × List Warn)
    (hnd : (entries.map (fun e => labels_to_tuple (group_by.zip e.1))).Nodup)
    (gbv : List String) (s : ℚ) (hmem : (gbv, s) ∈ entries) :
    flatFindValue (injectAll aname group_by acc entries).1
      (labels_to_tuple (group_by.zip gbv)) aname = some s := by
  induction entries generalizing acc with
  | nil => cases hmem
  | cons e rest ih =>
    obtain ⟨hnotin, hndr⟩ := List.nodup_cons.mp (by simpa only [List.map_cons] using hnd)
    rcases List.mem_cons.mp hmem with rfl | hmem'
    · rw [injectAll]
      rw [injectAll_preserve]
      · exact injectAgg_find_self _ _ _ _
      · intro e2 h2 hcontra
        apply hnotin
        rw [← hcontra]
        exact List.mem_map_of_mem _ h2
    · exact ih _ hndr hmem'

theorem aggItems_fst_length (shaped : Shaped) (r : Aggregation) (k : List String)
    (hk : k ∈ (aggItems shaped r).map Prod.fst) : k.length = r.group_by.length := by
  obtain ⟨p, hp, rfl⟩ := List.mem_map.mp hk
  simp only [aggItems] at hp
  obtain ⟨e, he, hpe⟩ := List.mem_flatMap.mp hp
  by_cases h : r.group_by.all (fun k => e.1.contains k)
  · rw [if_pos h] at hpe
    obtain ⟨e2, he2, hpe2⟩ := List.mem_flatMap.mp hpe
    obtain ⟨m, hm, rfl⟩ := List.mem_map.mp hpe2
    simp
  · rw [if_neg h] at hpe
    cases hpe

theorem zip_right_inj (gb : List String) (k1 k2 : List String)
    (h1 : k1.length = gb.length) (h2 : k2.length = gb.length)
    (h : gb.zip k1 = gb.zip k2) : k1 = k2 := by
  have e1 : (gb.zip k1).map Prod.snd = k1 := List.map_snd_zip gb k1 (le_of_eq h1)
  have e2 : (gb.zip k2).map Prod.snd = k2 := List.map_snd_zip gb k2 (le_of_eq h2)
  rw [← e1, ← e2, h]

/-! Section: Claim C1: grouped sum aggregation -/

/-- C1: for every database and every aggregation rule with operation `"sum"`,
`apply_aggregations` injects, for each distinct projection `gbv` of the rows
onto the rule's `group_by` keys (taken over every shape whose key set is a
superset of `group_by`), a metric named `rule.name` under the label set
consisting exactly of the `group_by` pairs, whose value is the sum of the
values of every metric named in `rule.metrics` across all rows agreeing on
that projection. -/
theorem apply_aggregations_sum_correct (db : MetricDb) (r : Aggregation)
    (db2 : MetricDb) (ws : List Warn)
    (happ : apply_aggregations db [r] = Except.ok (db2, ws))
    (gbv : List String)
    (hgbv : gbv ∈ (aggItems db.dict_by_label_types r).map Prod.fst) :
    flatFindValue db2.flat_dict (labels_to_tuple (r.group_by.zip gbv)) r.name
      = some (aggSum db.dict_by_label_types r gbv) := by
  by_cases hop : r.operation = "sum"
  · simp only [apply_aggregations, applyAggsList, applyOneAgg, hop, if_pos,
      List.nil_append] at happ
    rw [Except.ok.injEq, Prod.mk.injEq] at happ
    obtain ⟨hdb2, hws⟩ := happ
    have hflat : db2.flat_dict
        = (injectAll r.name r.group_by (db.flat_dict, [])
            (aggGroupDict db.dict_by_label_types r)).1 := by
      rw [← hdb2]
    rw [hflat]
    have hacc : aggGroupDict db.dict_by_label_types r
        = (keyOrder ((aggItems db.dict_by_label_types r).map Prod.fst)).map
            (fun k => (k, sumVals (aggItems db.dict_by_label_types r) k)) := by
      rw [aggGroupDict_eq_accum, accum_closed]
    have hko : gbv ∈ keyOrder ((aggItems db.dict_by_label_types r).map Prod.fst) :=
      (mem_keyOrder _ _).mpr hgbv
    have hmem : (gbv, sumVals (aggItems db.dict_by_label_types r) gbv)
        ∈ aggGroupDict db.dict_by_label_types r := by
      rw [hacc]
      exact List.mem_map_of_mem _ hko
    have hnd : ((aggGroupDict db.dict_by_label_types r).map
        (fun e => labels_to_tuple (r.group_by.zip e.1))).Nodup := by
      rw [hacc, List.map_map]
      apply List.Nodup.map_on
      · intro x hx y hy hxy
        exact zip_right_inj r.group_by x y
          (aggItems_fst_length _ _ _ ((mem_keyOrder _ _).mp hx))
          (aggItems_fst_length _ _ _ ((mem_keyOrder _ _).mp hy)) hxy
      · exact keyOrder_nodup _
    exact injectAll_find r.name r.group_by _ _ hnd gbv _ hmem
  · simp [apply_aggregations, applyAggsList, applyOneAgg, hop] at happ

/-- C1 witness: the two `{group:"a"}` cycles rows (3 and 7) under the
`total_cycles` rule yield the injected metric `total_cycles = 10` under
label set `{group:"a"}`. -/
theorem apply_aggregations_sum_correct_witness :
    flatFindValue dbExample1.flat_dict [("group", "a")] "total_cycles" = some 10 := by
  have h := apply_aggregations_sum_correct dbExample totalCyclesRule dbExample1 []
    (by with_unfolding_all decide) ["a"] (by with_unfolding_all decide)
  have h10 : aggSum dbExample.dict_by_label_types totalCyclesRule ["a"] = 10 := by
    with_unfolding_all decide
  rw [h10] at h
  exact h

/-! Section: Claim C3: the shaped rebuild is not a pure function of the flat index -/

/-- C3 evaluation: rebuilding the shaped view twice from an unchanged flat
index does not equal rebuilding it once — `separate_by_label_types` extends
the shaped index without clearing it, so the second rebuild duplicates every
metric.  This contradicts the claimed invariant that the shaped index is a
pure function of the flat index with no entries left over from earlier
rebuilds. -/
theorem separate_rebuild_duplicates :
    (dbOneEntry.separate_by_label_types).dict_by_label_types
        = [(["k"], [(["v"], [Metric.mk "m" 1 none none])])]
      ∧ dbOneEntry.separate_by_label_types.separate_by_label_types.dict_by_label_types
        = [(["k"], [(["v"], [Metric.mk "m" 1 none none, Metric.mk "m" 1 none none])])]
      ∧ dbOneEntry.separate_by_label_types.separate_by_label_types
        ≠ dbOneEntry.separate_by_label_types := by
  with_unfolding_all decide

/-! Section: Claim C4: aggregation is not idempotent -/

/-- C4 evaluation: applying the `total_cycles` rule once to the two cycles
rows yields `total_cycles = 10` with no warning; applying the identical rule
again to the result yields `20` together with an overwrite warning, because
the rebuild at the end of the first application duplicated every row in the
shaped index.  This contradicts the claimed idempotence. -/
theorem apply_aggregations_not_idempotent :
    (apply_aggregations dbExample [totalCyclesRule]).map
        (fun p => (flatFindValue p.1.flat_dict [("group", "a")] "total_cycles", p.2))
      = Except.ok (some 10, [])
    ∧ (apply_aggregations dbExample1 [totalCyclesRule]).map
        (fun p => (flatFindValue p.1.flat_dict [("group", "a")] "total_cycles", p.2))
      = Except.ok (some 20, [("total_cycles", 10, 20)]) := by
  with_unfolding_all decide

/-! Section: Claim C9: symbol resolution fallback -/

/-- C9 evaluation: in-bounds offsets resolve to the null-terminated strings
(`0 → "main"`, `5 → "helper"`), and a non-numeric offset falls back to its
literal text; but a numeric offset with no null terminator at or after it
(offset `100` into `b"main\0helper\0"`) yields Python `None` instead of the
claimed literal `"100"` fallback, and that `None` reaches `';'.join`, aborting
the whole collapse (modelled by `get_stack_lines` returning `none`). -/
theorem get_function_symbol_eval :
    get_function_symbol tblExample "0" = some "main"
    ∧ get_function_symbol tblExample "5" = some "helper"
    ∧ get_function_symbol tblExample "100" = none
    ∧ ¬ get_function_symbol tblExample "100" = some "100"
    ∧ get_function_symbol tblExample "abc" = some "abc"
    ∧ get_stack_lines (some tblExample) [] ["cycle_tracker_span", "op"] "frequency" none
        [offset100Rec] = none := by
  with_unfolding_all decide

/-! Section: Claim C5: label-set identity is order-dependent, not order-independent -/

/-- C5 counterexample: two records whose label sets contain exactly the same
(key, value) pairs in different orders are given *different* flat-index
identities — their metrics are not merged into one entry — and `diff_metrics`
fails to match them (the diff fields stay unset), refuting the claimed
order-independence of the join. -/
theorem labels_order_dependent :
    labels_to_tuple [("a", "1"), ("b", "2")] ≠ labels_to_tuple [("b", "2"), ("a", "1")]
    ∧ (MetricDb.init [] [gaugeAB, gaugeBA]).flat_dict
      = [([("a", "1"), ("b", "2")], [Metric.mk "m" 5 none none]),
         ([("b", "2"), ("a", "1")], [Metric.mk "m" 5 none none])]
    ∧ (diff_metrics (MetricDb.init [] [gaugeAB]) (MetricDb.init [] [gaugeBA])).flat_dict
      = [([("a", "1"), ("b", "2")], [Metric.mk "m" 5 none none])] := by
  with_unfolding_all decide

/-- C5 (amended): flat-index identity is the *ordered* tuple of label pairs:
two records whose label lists are equal as sequences (same pairs, same order)
are ingested under one identity, and `diff_metrics` matches them as the same
row; order-insensitivity holds only in the shaped view, not for the flat
index or the diff join. -/
theorem same_ordered_labels_same_identity (labels : Labels) (n : String) (v1 v2 : ℚ) :
    (MetricDb.init [] [⟨labels, n, v1⟩, ⟨labels, n, v2⟩]).flat_dict
        = [(labels, [Metric.mk n v1 none none, Metric.mk n v2 none none])]
      ∧ (diff_metrics (MetricDb.init [] [⟨labels, n, v1⟩]) (MetricDb.init [] [⟨labels, n, v2⟩])).flat_dict
        = [(labels, [Metric.mk n v1 (some (v1 - v2))
            (if v2 = 0 then none else some ((v1 - v2) / v2))])] := by
  constructor
  · simp [MetricDb.init, MetricDb.separate_by_label_types, add_to_flat_dict, labels_to_tuple]
  · by_cases hv : v2 = 0 <;>
      simp [MetricDb.init, MetricDb.separate_by_label_types, add_to_flat_dict, labels_to_tuple,
        diff_metrics, alookup, diffOne, List.find?, hv]

/-! Section: Claim C6: label-key normalization -/

/-- C6: normalization returns an ordered key tuple and matching value tuple:
the keys are a permutation of the label set's keys, the literal key `"group"`
occupies position 0 whenever present, all remaining keys appear in ascending
string order, the values are the keys' values in matching order, and the
empty label set yields empty tuples.  (The function is pure, so normalizing
the same label set twice trivially yields identical tuples.) -/
theorem normalizeLabels_spec (labels : Labels) :
    (normalizeLabels labels).1.Perm (labels.map Prod.fst)
    ∧ ("group" ∈ labels.map Prod.fst → (normalizeLabels labels).1.head? = some "group")
    ∧ List.Sorted (· ≤ ·) ((normalizeLabels labels).1.filter (fun k => k != "group"))
    ∧ (normalizeLabels labels).2 = (normalizeLabels labels).1.map (pyLookup labels)
    ∧ (labels = [] → normalizeLabels labels = ([], [])) := by
  have hsorted : List.Sorted keyLe (List.insertionSort keyLe (labels.map Prod.fst)) :=
    List.sorted_insertionSort keyLe _
  have hperm : (List.insertionSort keyLe (labels.map Prod.fst)).Perm (labels.map Prod.fst) :=
    List.perm_insertionSort keyLe _
  refine ⟨hperm, ?_, ?_, rfl, ?_⟩
  · intro hg
    have hg' : "group" ∈ List.insertionSort keyLe (labels.map Prod.fst) :=
      hperm.mem_iff.mpr hg
    show (List.insertionSort keyLe (labels.map Prod.fst)).head? = some "group"
    cases hks : List.insertionSort keyLe (labels.map Prod.fst) with
    | nil => rw [hks] at hg'; cases hg'
    | cons h t =>
      rw [hks] at hg' hsorted
      rcases List.mem_cons.mp hg' with rfl | hgt
      · rfl
      · have hle : keyLe h "group" := (List.pairwise_cons.mp hsorted).1 _ hgt
        by_cases hh : h = "group"
        · rw [hh]; rfl
        · exfalso
          rcases hle with hlt | ⟨heq, _⟩
          · simp [custom_sort_label_keys, hh] at hlt
          · simp [custom_sort_label_keys, hh] at heq
  · have hsf : List.Sorted keyLe
        ((List.insertionSort keyLe (labels.map Prod.fst)).filter (fun k => k != "group")) :=
      List.Pairwise.sublist (List.filter_sublist _) hsorted
    refine List.Pairwise.imp_of_mem ?_ hsf
    intro a b ha hb hab
    have ha' : a ≠ "group" := by simpa using (List.mem_filter.mp ha).2
    have hb' : b ≠ "group" := by simpa using (List.mem_filter.mp hb).2
    rcases hab with hlt | ⟨_, hle2⟩
    · simp [custom_sort_label_keys, ha', hb'] at hlt
    · simpa [custom_sort_label_keys, ha', hb'] using hle2
  · intro h
    subst h
    rfl

/-- C6 witness: on the label set `[op=x, group=g]`, the key `"group"` moves to
position 0 and the value tuple follows the key order. -/
theorem normalizeLabels_spec_witness :
    (normalizeLabels [("op", "x"), ("group", "g")]).1.head? = some "group"
    ∧ (normalizeLabels [("op", "x"), ("group", "g")]).2
      = (normalizeLabels [("op", "x"), ("group", "g")]).1.map
          (pyLookup [("op", "x"), ("group", "g")]) := by
  have h := normalizeLabels_spec [("op", "x"), ("group", "g")]
  exact ⟨h.2.1 (by decide), h.2.2.2.1⟩

/-! Section: Claim C2: per-metric diff fields -/

/-- C2: for metrics whose label identity occurs in both flat indexes,
`diff_metrics` sets `diff_value` to current minus the value of the *first*
same-named metric in the previous list, sets `diff_percent` to
`diff_value / previous` exactly when the previous value is nonzero (leaving
it unset when the previous value is zero), and leaves both fields unset when
the identity is absent from the previous database; names and values are
untouched.  The freshness hypothesis says the diff fields start unset, as
they do for every ingested or injected metric. -/
theorem diff_metrics_spec (db db_old : MetricDb) (L : Labels) (ms : List Metric)
    (hL : alookup db.flat_dict L = some ms)
    (hfresh : ∀ m ∈ ms, m.diff_value = none ∧ m.diff_percent = none) :
    ∃ ms', alookup (diff_metrics db db_old).flat_dict L = some ms'
      ∧ ms'.length = ms.length
      ∧ ∀ (i : ℕ) (m : Metric), ms[i]? = some m → ∃ m' : Metric, ms'[i]? = some m'
          ∧ m'.name = m.name ∧ m'.value = m.value
          ∧ (match alookup db_old.flat_dict L with
             | none => m'.diff_value = none ∧ m'.diff_percent = none
             | some oldms =>
               match oldms.find? (fun mo => mo.name == m.name) with
               | none => m'.diff_value = none ∧ m'.diff_percent = none
               | some mo =>
                 m'.diff_value = some (m.value - mo.value)
                 ∧ m'.diff_percent = (if mo.value = 0 then none
                     else some ((m.value - mo.value) / mo.value))) := by
  have halo : alookup (diff_metrics db db_old).flat_dict L
      = (alookup db.flat_dict L).map (fun ms2 =>
          match alookup db_old.flat_dict L with
          | none => ms2
          | some oldms => ms2.map (diffOne oldms)) :=
    alookup_map_keyfun db.flat_dict
      (fun l ms2 => match alookup db_old.flat_dict l with
        | none => ms2
        | some oldms => ms2.map (diffOne oldms)) L
  rw [hL] at halo
  cases hold : alookup db_old.flat_dict L with
  | none =>
    rw [hold] at halo
    refine ⟨ms, by simpa using halo, rfl, ?_⟩
    intro i m hi
    have hm : m ∈ ms := by
      obtain ⟨hlt, rfl⟩ := List.getElem?_eq_some.mp hi
      exact List.getElem_mem hlt
    exact ⟨m, hi, rfl, rfl, hfresh m hm⟩
  | some oldms =>
    rw [hold] at halo
    refine ⟨ms.map (diffOne oldms), by simpa using halo, by simp, ?_⟩
    intro i m hi
    have hm : m ∈ ms := by
      obtain ⟨hlt, rfl⟩ := List.getElem?_eq_some.mp hi
      exact List.getElem_mem hlt
    refine ⟨diffOne oldms m, by rw [List.getElem?_map, hi]; rfl, ?_, ?_, ?_⟩
    · unfold diffOne; cases hfind : oldms.find? (fun mo => mo.name == m.name) <;> simp [hfind]
    · unfold diffOne; cases hfind : oldms.find? (fun mo => mo.name == m.name) <;> simp [hfind]
    · cases hfind : oldms.find? (fun mo => mo.name == m.name) with
      | none => simpa [diffOne, hfind] using hfresh m hm
      | some mo =>
        by_cases hz : mo.value = 0
        · simp [diffOne, hfind, hz, (hfresh m hm).2]
        · simp [diffOne, hfind, hz]

/-- C2 witness: current `x = 10` vs previous `x = 4` gives `diff_value = 6`
and `diff_percent = 3/2`; current `y = 5` vs previous `y = 0` gives
`diff_value = 5` with `diff_percent` unset. -/
theorem diff_metrics_spec_witness :
    ∃ ms', alookup (diff_metrics dbNowExample dbOldExample).flat_dict [("group", "a")] = some ms'
      ∧ ms'[0]? = some (Metric.mk "x" 10 (some 6) (some (3 / 2)))
      ∧ ms'[1]? = some (Metric.mk "y" 5 (some 5) none) := by
  obtain ⟨ms', h1, h2, h3⟩ := diff_metrics_spec dbNowExample dbOldExample [("group", "a")]
    [Metric.mk "x" 10 none none, Metric.mk "y" 5 none none]
    (by with_unfolding_all decide) (by with_unfolding_all decide)
  have heval : alookup (diff_metrics dbNowExample dbOldExample).flat_dict [("group", "a")]
      = some [Metric.mk "x" 10 (some 6) (some (3 / 2)), Metric.mk "y" 5 (some 5) none] := by
    with_unfolding_all decide
  rw [heval] at h1
  injection h1 with h1
  subst h1
  exact ⟨_, heval, rfl, rfl⟩

/-! Section: Claim C7: zero counters dropped, gauges retained -/

theorem alookup_add_to_flat_dict (lab : Labels) (n : String) (v : ℚ) (fl : Flat) (L : Labels) :
    alookup (add_to_flat_dict lab n v fl) L =
      if lab = L then some (((alookup fl L).getD []) ++ [Metric.mk n v none none])
      else alookup fl L := by
  induction fl with
  | nil => by_cases h : lab = L <;> simp [add_to_flat_dict, alookup, h]
  | cons e rest ih =>
    by_cases he : e.1 = lab
    · by_cases hL : lab = L
      · simp [add_to_flat_dict, alookup, he, hL, he.trans hL]
      · have : e.1 ≠ L := fun h => hL ((he.symm.trans h : lab = L))
        simp [add_to_flat_dict, alookup, he, hL, this]
    · by_cases heL : e.1 = L
      · have hLlab : ¬ L = lab := fun h => he (heL.trans h)
        have hlabL : lab ≠ L := fun h => hLlab h.symm
        simp [add_to_flat_dict, alookup, he, heL, hLlab, hlabL]
      · simp [add_to_flat_dict, alookup, he, heL, ih]

theorem foldl_add_lookup {ρ : Type} (lab : ρ → Labels) (nm : ρ → String) (vl : ρ → ℚ)
    (rs : List ρ) (fl : Flat) (L : Labels) :
    alookup (rs.foldl (fun fl r => add_to_flat_dict (lab r) (nm r) (vl r) fl) fl) L =
      (match alookup fl L with
       | some cur => some (cur ++ ((rs.filter (fun r => lab r = L)).map
           (fun r => Metric.mk (nm r) (vl r) none none)))
       | none =>
         if (rs.filter (fun r => lab r = L)).isEmpty then none
         else some ((rs.filter (fun r => lab r = L)).map
           (fun r => Metric.mk (nm r) (vl r) none none))) := by
  induction rs generalizing fl with
  | nil => cases h : alookup fl L <;> simp [h]
  | cons r rest ih =>
    rw [List.foldl_cons, ih]
    by_cases hr : lab r = L
    · rw [alookup_add_to_flat_dict]
      rw [if_pos hr]
      cases h : alookup fl L with
      | none => simp [h, hr]
      | some cur => simp [h, hr]
    · rw [alookup_add_to_flat_dict, if_neg hr]
      cases h : alookup fl L <;> simp [h, hr]

theorem counter_fold_filter (counters : List CounterRec) (fl : Flat) :
    counters.foldl (fun fl c => if c.value = 0 then fl
        else add_to_flat_dict (labels_to_tuple c.labels) c.metric (c.value : ℚ) fl) fl
      = (counters.filter (fun c => c.value != 0)).foldl
          (fun fl c => add_to_flat_dict (labels_to_tuple c.labels) c.metric (c.value : ℚ) fl) fl := by
  induction counters generalizing fl with
  | nil => rfl
  | cons c rest ih =>
    by_cases hc : c.value = 0
    · simp [hc, ih]
    · simp [hc, ih]

/-- C7: ingestion drops every counter record whose parsed integer value is 0
(the database built from `counters` equals the one built from the counters
with the zero-valued ones removed), while every gauge record is retained
regardless of its value: for each identity, the flat entry is exactly the
nonzero counters' metrics followed by all gauges' metrics with those labels. -/
theorem ingestion_drops_zero_counters (counters : List CounterRec) (gauges : List GaugeRec) :
    MetricDb.init counters gauges
        = MetricDb.init (counters.filter (fun c => c.value != 0)) gauges
    ∧ ∀ L : Labels, alookup (MetricDb.init counters gauges).flat_dict L =
        (let ms := ((counters.filter (fun c => c.value != 0)).filter
              (fun c => labels_to_tuple c.labels = L)).map
              (fun c => Metric.mk c.metric (c.value : ℚ) none none)
            ++ (gauges.filter (fun g => labels_to_tuple g.labels = L)).map
              (fun g => Metric.mk g.metric g.value none none)
         if ms.isEmpty then none else some ms) := by
  constructor
  · have hff : (counters.filter (fun c => c.value != 0)).filter (fun c => c.value != 0)
        = counters.filter (fun c => c.value != 0) := by
      rw [List.filter_filter]
      exact List.filter_congr (fun c _ => Bool.and_self _)
    simp only [MetricDb.init]
    rw [counter_fold_filter counters,
      counter_fold_filter (counters.filter (fun c => c.value != 0)), hff]
  · intro L
    show alookup (gauges.foldl
        (fun fl g => add_to_flat_dict (labels_to_tuple g.labels) g.metric g.value fl)
        (counters.foldl (fun fl c => if c.value = 0 then fl
          else add_to_flat_dict (labels_to_tuple c.labels) c.metric (c.value : ℚ) fl) [])) L = _
    rw [counter_fold_filter]
    rw [foldl_add_lookup (fun g : GaugeRec => labels_to_tuple g.labels)
      (fun g => g.metric) (fun g => g.value) gauges _ L]
    have h1 := foldl_add_lookup (fun c : CounterRec => labels_to_tuple c.labels)
      (fun c => c.metric) (fun c => (c.value : ℚ))
      (counters.filter (fun c => c.value != 0)) [] L
    simp only [alookup] at h1
    by_cases hC : ((counters.filter (fun c => c.value != 0)).filter
        (fun c => labels_to_tuple c.labels = L)).isEmpty
    · rw [if_pos hC] at h1
      rw [h1]
      have hnil : (counters.filter (fun c => c.value != 0)).filter
          (fun c => labels_to_tuple c.labels = L) = [] := List.isEmpty_iff.mp hC
      simp [hnil]
    · rw [if_neg hC] at h1
      rw [h1]
      have hne : (counters.filter (fun c => c.value != 0)).filter
          (fun c => labels_to_tuple c.labels = L) ≠ [] := by
        intro h
        exact hC (List.isEmpty_iff.mpr h)
      have hmapne : (((counters.filter (fun c => c.value != 0)).filter
          (fun c => labels_to_tuple c.labels = L)).map
          (fun c => Metric.mk c.metric (c.value : ℚ) none none)) ≠ [] := by
        intro h
        rw [List.map_eq_nil_iff] at h
        exact hne h
      have hemp : ((((counters.filter (fun c => c.value != 0)).filter
            (fun c => labels_to_tuple c.labels = L)).map
            (fun c => Metric.mk c.metric (c.value : ℚ) none none))
          ++ (gauges.filter (fun g => labels_to_tuple g.labels = L)).map
            (fun g => Metric.mk g.metric g.value none none)).isEmpty = false := by
        by_cases hx : ((((counters.filter (fun c => c.value != 0)).filter
            (fun c => labels_to_tuple c.labels = L)).map
            (fun c => Metric.mk c.metric (c.value : ℚ) none none))
          ++ (gauges.filter (fun g => labels_to_tuple g.labels = L)).map
            (fun g => Metric.mk g.metric g.value none none)).isEmpty = true
        · exfalso
          have hnil := List.isEmpty_iff.mp hx
          rw [List.append_eq_nil] at hnil
          exact hmapne hnil.1
        · exact Bool.eq_false_iff.mpr hx
      simp only [hemp, Bool.false_eq_true, if_false]

/-! Section: Claim C10: diff only touches the diff fields -/

theorem diffOne_name_value (oldms : List Metric) (m : Metric) :
    (diffOne oldms m).name = m.name ∧ (diffOne oldms m).value = m.value := by
  unfold diffOne
  cases hfind : oldms.find? (fun mo => mo.name == m.name) <;> simp [hfind]

/-- C10: `diff_metrics` reads `db_old` without modifying it (in this pure
embedding it is an unchanged input), and within the current database it
preserves the flat index completely except for the diff annotations: the
sequence of identities is unchanged, every metric list keeps its length, and
every metric keeps its name and value — only `diff_value`/`diff_percent` may
change. -/
theorem diff_metrics_frame (db db_old : MetricDb) :
    ((diff_metrics db db_old).flat_dict.map Prod.fst = db.flat_dict.map Prod.fst)
    ∧ ∀ (i : ℕ) (e : Labels × List Metric), db.flat_dict[i]? = some e →
        ∃ ms' : List Metric, (diff_metrics db db_old).flat_dict[i]? = some (e.1, ms')
          ∧ ms'.length = e.2.length
          ∧ ∀ (j : ℕ) (m : Metric), e.2[j]? = some m → ∃ m' : Metric, ms'[j]? = some m'
              ∧ m'.name = m.name ∧ m'.value = m.value := by
  constructor
  · show (db.flat_dict.map (fun e => (e.1,
        match alookup db_old.flat_dict e.1 with
        | none => e.2
        | some oldms => e.2.map (diffOne oldms)))).map Prod.fst = _
    rw [List.map_map]
    rfl
  · intro i e he
    have hmap : (diff_metrics db db_old).flat_dict[i]?
        = (db.flat_dict[i]?).map (fun e => (e.1,
            match alookup db_old.flat_dict e.1 with
            | none => e.2
            | some oldms => e.2.map (diffOne oldms))) :=
      List.getElem?_map (fun e : Labels × List Metric =>
        ((e.1, match alookup db_old.flat_dict e.1 with
          | none => e.2
          | some oldms => e.2.map (diffOne oldms)) : Labels × List Metric)) db.flat_dict i
    rw [he] at hmap
    simp only [Option.map_some'] at hmap
    cases hold : alookup db_old.flat_dict e.1 with
    | none =>
      rw [hold] at hmap
      exact ⟨e.2, hmap, rfl, fun j m hj => ⟨m, hj, rfl, rfl⟩⟩
    | some oldms =>
      rw [hold] at hmap
      refine ⟨e.2.map (diffOne oldms), hmap, by simp, ?_⟩
      intro j m hj
      refine ⟨diffOne oldms m, by rw [List.getElem?_map, hj]; rfl, ?_, ?_⟩
      · exact (diffOne_name_value oldms m).1
      · exact (diffOne_name_value oldms m).2

/-- C10 witness: on the concrete diff example, the identity and the metric
names and values survive the diff unchanged. -/
theorem diff_metrics_frame_witness :
    ∃ ms' : List Metric,
      (diff_metrics dbNowExample dbOldExample).flat_dict[0]? = some ([("group", "a")], ms')
      ∧ ms'.length = 2
      ∧ ∀ (j : ℕ) (m : Metric),
          ([Metric.mk "x" 10 none none, Metric.mk "y" 5 none none] : List Metric)[j]? = some m →
          ∃ m' : Metric, ms'[j]? = some m' ∧ m'.name = m.name ∧ m'.value = m.value := by
  obtain ⟨ms', h1, h2, h3⟩ := (diff_metrics_frame dbNowExample dbOldExample).2 0
    ([("group", "a")], [Metric.mk "x" 10 none none, Metric.mk "y" 5 none none])
    (by with_unfolding_all decide)
  exact ⟨ms', h1, h2, h3⟩

/-! Section: Claim C8: stack collapsing -/

theorem stackItemsSpec_cons_skip (string_table : Option (List Char))
    (group_by_kvs : List (String × String)) (stack_keys : List String)
    (metric_name : String) (sum_metrics : Option (List String))
    (c : CounterRec) (rest : List CounterRec)
    (hskip : counterSelected metric_name sum_metrics c = false
      ∨ groupFilter group_by_kvs c.labels = true
      ∨ recordPath string_table stack_keys c.labels = none) :
    stackItemsSpec string_table group_by_kvs stack_keys metric_name sum_metrics (c :: rest)
      = stackItemsSpec string_table group_by_kvs stack_keys metric_name sum_metrics rest := by
  rcases hskip with h | h | h <;>
    simp [stackItemsSpec, List.filterMap_cons, h]

theorem stackItemsSpec_cons_path (string_table : Option (List Char))
    (group_by_kvs : List (String × String)) (stack_keys : List String)
    (metric_name : String) (sum_metrics : Option (List String))
    (c : CounterRec) (rest : List CounterRec) (path : String)
    (hsel : counterSelected metric_name sum_metrics c = true)
    (hg : groupFilter group_by_kvs c.labels = false)
    (hp : recordPath string_table stack_keys c.labels = some (some path)) :
    stackItemsSpec string_table group_by_kvs stack_keys metric_name sum_metrics (c :: rest)
      = (path, c.value) :: stackItemsSpec string_table group_by_kvs stack_keys metric_name sum_metrics rest := by
  simp [stackItemsSpec, List.filterMap_cons, hsel, hg, hp]

theorem stackLoop_closed (string_table : Option (List Char))
    (group_by_kvs : List (String × String)) (stack_keys : List String)
    (metric_name : String) (sum_metrics : Option (List String))
    (counters : List CounterRec) (sums : List (String × Int)) (nz : Bool)
    (hno : ∀ c ∈ counters, counterSelected metric_name sum_metrics c = true →
      groupFilter group_by_kvs c.labels = false →
      recordPath string_table stack_keys c.labels ≠ some none) :
    stackLoop string_table group_by_kvs stack_keys metric_name sum_metrics counters sums nz
      = some (accumFrom sums
            (stackItemsSpec string_table group_by_kvs stack_keys metric_name sum_metrics counters),
          nz || (stackItemsSpec string_table group_by_kvs stack_keys metric_name
            sum_metrics counters).any (fun p => p.2 != 0)) := by
  induction counters generalizing sums nz with
  | nil => simp [stackLoop, stackItemsSpec, accumFrom]
  | cons c rest ih =>
    have hrest : ∀ c' ∈ rest, counterSelected metric_name sum_metrics c' = true →
        groupFilter group_by_kvs c'.labels = false →
        recordPath string_table stack_keys c'.labels ≠ some none :=
      fun c' hc' => hno c' (List.mem_cons_of_mem c hc')
    cases hsel : counterSelected metric_name sum_metrics c with
    | false =>
      rw [stackItemsSpec_cons_skip _ _ _ _ _ _ _ (Or.inl hsel)]
      have hstep : stackLoop string_table group_by_kvs stack_keys metric_name sum_metrics
          (c :: rest) sums nz
          = stackLoop string_table group_by_kvs stack_keys metric_name sum_metrics rest sums nz := by
        simp [stackLoop, hsel]
      rw [hstep, ih sums nz hrest]
    | true =>
      cases hg : groupFilter group_by_kvs c.labels with
      | true =>
        rw [stackItemsSpec_cons_skip _ _ _ _ _ _ _ (Or.inr (Or.inl hg))]
        have hstep : stackLoop string_table group_by_kvs stack_keys metric_name sum_metrics
            (c :: rest) sums nz
            = stackLoop string_table group_by_kvs stack_keys metric_name sum_metrics rest sums nz := by
          simp [stackLoop, hsel, hg]
        rw [hstep, ih sums nz hrest]
      | false =>
        cases hp : recordPath string_table stack_keys c.labels with
        | none =>
          rw [stackItemsSpec_cons_skip _ _ _ _ _ _ _ (Or.inr (Or.inr hp))]
          have hstep : stackLoop string_table group_by_kvs stack_keys metric_name sum_metrics
              (c :: rest) sums nz
              = stackLoop string_table group_by_kvs stack_keys metric_name sum_metrics rest sums nz := by
            simp [stackLoop, hsel, hg, hp]
          rw [hstep, ih sums nz hrest]
        | some op =>
          cases op with
          | none => exact absurd hp (hno c (List.mem_cons_self c rest) hsel hg)
          | some path =>
            rw [stackItemsSpec_cons_path _ _ _ _ _ _ _ _ hsel hg hp]
            have hstep : stackLoop string_table group_by_kvs stack_keys metric_name sum_metrics
                (c :: rest) sums nz
                = stackLoop string_table group_by_kvs stack_keys metric_name sum_metrics rest
                    (bump sums path c.value) (nz || (c.value != 0)) := by
              simp [stackLoop, hsel, hg, hp]
            rw [hstep, ih (bump sums path c.value) (nz || (c.value != 0)) hrest]
            rw [accumFrom_cons]
            simp [List.any_cons, Bool.or_assoc]

theorem filter_map_nonzero (l : List String) (g : String → Int) :
    (((l.map (fun k => (k, g k))).filter (fun p => p.2 != 0)).map
        (fun p => p.1 ++ " " ++ toString p.2))
      = l.filterMap (fun k => if g k = 0 then none
          else some (k ++ " " ++ toString (g k))) := by
  induction l with
  | nil => rfl
  | cons k rest ih =>
    by_cases h : g k = 0
    · simp [List.filterMap_cons, h, ih]
    · simp [List.filterMap_cons, h, ih]

/-- C8: stack collapsing merges records that collapse to an identical joined
path by summing their integer values into one weight per path, emits one
`"path weight"` line per path with nonzero accumulated weight (in order of
first occurrence), and emits no lines at all when every matching record has
value 0: `get_stack_lines` equals the declarative `get_stack_lines_spec`
whenever no symbol-resolution failure aborts the run (`recordPath ≠ some
none`, which always holds without a symbol table).  In particular the two
`{span:"f;g", op:"add"}` frequency records with values 2 and 3 produce
exactly the one line `"f;g;add 5"`. -/
theorem get_stack_lines_merges_paths :
    (∀ (string_table : Option (List Char)) (group_by_kvs : List (String × String))
        (stack_keys : List String) (metric_name : String) (sum_metrics : Option (List String))
        (counters : List CounterRec),
      (∀ c ∈ counters, counterSelected metric_name sum_metrics c = true →
        groupFilter group_by_kvs c.labels = false →
        recordPath string_table stack_keys c.labels ≠ some none) →
      get_stack_lines string_table group_by_kvs stack_keys metric_name sum_metrics counters
        = some (get_stack_lines_spec string_table group_by_kvs stack_keys metric_name
            sum_metrics counters))
    ∧ get_stack_lines none [] ["span", "op"] "frequency" none [fgRec2, fgRec3]
      = some ["f;g;add 5"] := by
  constructor
  · intro tbl gkvs skeys mn sm counters hno
    rw [get_stack_lines, stackLoop_closed tbl gkvs skeys mn sm counters [] false hno]
    by_cases hall : ∀ p ∈ stackItemsSpec tbl gkvs skeys mn sm counters, p.2 = 0
    · have hany : (stackItemsSpec tbl gkvs skeys mn sm counters).any (fun p => p.2 != 0)
          = false := by
        rw [List.any_eq_false]
        intro p hp
        simpa using hall p hp
      simp only [Bool.false_or, hany, Bool.false_eq_true, if_false]
      simp only [get_stack_lines_spec]
      rw [if_pos hall]
    · have hany : (stackItemsSpec tbl gkvs skeys mn sm counters).any (fun p => p.2 != 0)
          = true := by
        rw [List.any_eq_true]
        push_neg at hall
        obtain ⟨p, hp, hpz⟩ := hall
        exact ⟨p, hp, by simpa using hpz⟩
      rw [accum_closed]
      simp only [get_stack_lines_spec, hany, Bool.false_or, if_true, if_neg hall]
      exact congrArg some (filter_map_nonzero _ _)
  · decide

/-- C8 witness: the theorem applied to the concrete `f;g` records, with the
crash-freedom hypothesis discharged by computation; evaluating the
declarative side yields exactly the one merged line. -/
theorem get_stack_lines_merges_paths_witness :
    get_stack_lines none [] ["span", "op"] "frequency" none [fgRec2, fgRec3]
      = some (get_stack_lines_spec none [] ["span", "op"] "frequency" none [fgRec2, fgRec3])
    ∧ get_stack_lines_spec none [] ["span", "op"] "frequency" none [fgRec2, fgRec3]
      = ["f;g;add 5"] := by
  constructor
  · exact get_stack_lines_merges_paths.1 none [] ["span", "op"] "frequency" none
      [fgRec2, fgRec3] (by decide)
  · decide
